import Mathlib

/-!
Verification development for the svag SVG minifier.

The definitions below are a shallow embedding of the Rust sources:
`src/ast.rs`, `src/path.rs`, `src/optimize.rs`, `src/serialize.rs`,
`src/parse.rs` and `src/lib.rs`.  Double-precision floats in path data are
modelled as exact decimal numbers `num * 10^(-den10)` (every literal that the
path grammar can produce is such a number; the Rust code rounds them to f64,
which coincides with the exact value on all concrete inputs used in the
theorems below).  Rust strings are modelled as Lean strings; operations that
the Rust standard library performs on UTF-8 bytes (such as `str::len` and
byte slicing in `minify_color`) are modelled at the byte level via an explicit
UTF-8 encoding of the character sequence.  A Rust panic is modelled as
`Option.none`.  The `quick_xml` event tokenizer is an external crate and is
modelled from the specification (see `read_events`).
-/

namespace Svag

/-! ## Character-list string helpers

Kernel-computable replacements for the Rust `str` operations used by the
sources.  Rust `char::is_whitespace` and `char::to_lowercase` are Unicode
aware; the model uses ASCII semantics, which agrees on every string the
theorems below evaluate. -/

def trimLeftChars : List Char → List Char
  | [] => []
  | c :: cs => if c.isWhitespace then trimLeftChars cs else c :: cs

def trimChars (l : List Char) : List Char :=
  (trimLeftChars (trimLeftChars l.reverse).reverse)

/-- Rust `str::trim`, modelled on the character list of the string. -/
def strTrim (s : String) : String := String.mk (trimChars s.toList)

/-- Rust `str::to_lowercase` (ASCII model). -/
def strToLower (s : String) : String := String.mk (s.toList.map Char.toLower)

def isPrefixOfChars : List Char → List Char → Bool
  | [], _ => true
  | _ :: _, [] => false
  | a :: as, b :: bs => a == b && isPrefixOfChars as bs

/-- Rust `str::starts_with` on a literal needle. -/
def strStartsWith (s pat : String) : Bool := isPrefixOfChars pat.toList s.toList

def containsSubChars (needle : List Char) : List Char → Bool
  | [] => needle.isEmpty
  | c :: cs => isPrefixOfChars needle (c :: cs) || containsSubChars needle cs

/-- Rust `str::contains` on a literal needle. -/
def strContains (s pat : String) : Bool := containsSubChars pat.toList s.toList

/-- Split a character list at every occurrence of a separator character
(Rust `str::split(c)`; the pieces do not contain the separator). -/
def splitOnChar (sep : Char) : List Char → List (List Char)
  | [] => [[]]
  | c :: cs =>
    let rest := splitOnChar sep cs
    if c == sep then [] :: rest
    else
      match rest with
      | [] => [[c]]
      | piece :: pieces => (c :: piece) :: pieces

/-- Rust `str::split_once(c)`: the pieces before and after the first
occurrence of the separator, or `none` when the separator is absent. -/
def splitOnceChar (sep : Char) : List Char → Option (List Char × List Char)
  | [] => none
  | c :: cs =>
    if c == sep then some ([], cs)
    else
      match splitOnceChar sep cs with
      | some (l, r) => some (c :: l, r)
      | none => none

/-- Number of bytes of the UTF-8 encoding of one character
(Rust `char::len_utf8`). -/
def utf8Width (c : Char) : Nat :=
  if c.toNat < 0x80 then 1
  else if c.toNat < 0x800 then 2
  else if c.toNat < 0x10000 then 3
  else 4

/-- Rust `str::len`: the length of the string in UTF-8 bytes. -/
def utf8ByteLen (l : List Char) : Nat := (l.map utf8Width).foldr (· + ·) 0

/-! ## Exact decimal numbers

`Fp` models the `f64` values that flow through the path engine as exact
decimal fractions `num / 10 ^ den10`.  All path-data literals are decimal, so
the parser produces such values exactly. -/

structure Fp where
  num : Int
  den10 : Nat
deriving DecidableEq, Repr

/-- The exact rational value of an `Fp` (used only in specifications). -/
def Fp.val (x : Fp) : ℚ := (x.num : ℚ) / ((10 : ℚ) ^ x.den10)

def Fp.ofInt (i : Int) : Fp := ⟨i, 0⟩

/-- Divide `x` by `10^d`, rounding half away from zero
(the semantics of Rust `f64::round` after scaling). -/
def roundHalfAway (x : Int) (d : Nat) : Int :=
  if d = 0 then x
  else
    let dd : Nat := 10 ^ d
    let q : Nat := (x.natAbs + dd / 2) / dd
    if x < 0 then -(q : Int) else (q : Int)

/-- Round an `Fp` to `k` fractional digits (the `(n * factor).round() / factor`
step of `format_number`), returning the numerator over `10^k`. -/
def Fp.roundTo (x : Fp) (k : Nat) : Int :=
  if x.den10 ≤ k then x.num * (10 : Int) ^ (k - x.den10)
  else roundHalfAway x.num (x.den10 - k)

/-! ## Path engine (`src/path.rs`)

`Command`, `format_number`, `format_cmd`, `format_arc`, `serialize_path` and
the `PathParser` are translated from `src/path.rs`.  The parser's `while`
loop is modelled with explicit fuel: each terminating loop iteration of the
Rust code consumes at least one input character (an explicit command letter,
or at least one operand character) except an implicit repetition of `z`/`Z`,
which consumes nothing and therefore loops forever in Rust.  With fuel
`length + 1` the model returns exactly the Rust result on terminating inputs
and the distinguished `fuelExhausted` error exactly on diverging inputs. -/

inductive Command where
  | MoveTo (rel : Bool) (x y : Fp)
  | LineTo (rel : Bool) (x y : Fp)
  | HorizontalTo (rel : Bool) (x : Fp)
  | VerticalTo (rel : Bool) (y : Fp)
  | CurveTo (rel : Bool) (x1 y1 x2 y2 x y : Fp)
  | SmoothCurveTo (rel : Bool) (x2 y2 x y : Fp)
  | QuadTo (rel : Bool) (x1 y1 x y : Fp)
  | SmoothQuadTo (rel : Bool) (x y : Fp)
  | Arc (rel : Bool) (rx ry x_axis_rotation : Fp) (large_arc sweep : Bool) (x y : Fp)
  | ClosePath
deriving DecidableEq, Repr

inductive PathErr where
  | invalidPath (msg : String)
  | fuelExhausted
deriving DecidableEq, Repr

deriving instance DecidableEq for Except

def natDigitsStr (n : Nat) : List Char := (toString n).toList

def trimTrailing (c : Char) (l : List Char) : List Char :=
  ((l.reverse).dropWhile (· == c)).reverse

def padDigits (n : Nat) (width : Nat) : List Char :=
  let d := natDigitsStr n
  List.replicate (width - d.length) '0' ++ d

/-- `format_number` from `src/path.rs`: round to `precision` fractional
digits, print without a decimal point if integral, otherwise trim trailing
zeros and a trailing point, and strip a leading zero before the point. -/
def format_number (n : Fp) (precision : Nat) : List Char :=
  if n.num = 0 then ['0']
  else
    let r : Int := n.roundTo precision
    let p : Nat := 10 ^ precision
    if r.natAbs % p = 0 then
      (toString (r / (p : Int))).toList
    else
      let sign : List Char := if r < 0 then ['-'] else []
      let s := sign ++ natDigitsStr (r.natAbs / p) ++ ['.'] ++ padDigits (r.natAbs % p) precision
      let s := if s.contains '.' then trimTrailing '.' (trimTrailing '0' s) else s
      match s with
      | '0' :: '.' :: t => '.' :: t
      | '-' :: '0' :: '.' :: t => '-' :: '.' :: t
      | other => other

/-- Separator test of `format_cmd` and of the `serialize_path` main loop:
a space is needed when the previous character and the next one are both a
digit or a point. -/
def needsSpaceBoth (last first : Char) : Bool :=
  (last.isDigit || last == '.') && (first.isDigit || first == '.')

def appendNumber (out : List Char) (formatted : List Char) : List Char :=
  let needs_sep :=
    match out.getLast?, formatted.head? with
    | some last, some first => needsSpaceBoth last first
    | _, _ => false
  (if needs_sep then out ++ [' '] else out) ++ formatted

/-- `format_cmd` from `src/path.rs`.  The command letter is omitted when it
equals the previous emitted letter, with `L` after `M` (and `l` after `m`)
also elided; `z`/`Z` (empty argument list) is always written. -/
def format_cmd (cmd : Char) (prev_cmd : Option Char) (args : List Fp) (precision : Nat) : List Char :=
  let needs_cmd :=
    match prev_cmd with
    | none => true
    | some prev =>
      if prev == 'M' && cmd == 'L' then false
      else if prev == 'm' && cmd == 'l' then false
      else prev != cmd
  let out : List Char :=
    if needs_cmd && !args.isEmpty then [cmd]
    else if args.isEmpty then [cmd]
    else []
  args.foldl (fun out arg => appendNumber out (format_number arg precision)) out

/-- Separator test of `format_arc`: the previous character must be a digit
(a point does not count on the left side in `format_arc`). -/
def needsSpaceArc (last first : Char) : Bool :=
  last.isDigit && (first.isDigit || first == '.')

def appendArcPart (out : List Char) (part : List Char) : List Char :=
  let needs_sep :=
    match out.getLast?, part.head? with
    | some last, some first => needsSpaceArc last first
    | _, _ => false
  (if needs_sep then out ++ [' '] else out) ++ part

/-- `format_arc` from `src/path.rs`. -/
def format_arc (cmd : Char) (prev_cmd : Option Char) (rx ry x_rot : Fp)
    (large_arc sweep : Bool) (x y : Fp) (precision : Nat) : List Char :=
  let out : List Char := if prev_cmd != some cmd then [cmd] else []
  let parts : List (List Char) :=
    [format_number rx precision,
     format_number ry precision,
     format_number x_rot precision,
     if large_arc then ['1'] else ['0'],
     if sweep then ['1'] else ['0'],
     format_number x precision,
     format_number y precision]
  match parts with
  | [] => out
  | first :: rest => rest.foldl appendArcPart (out ++ first)

/-- One iteration of the `serialize_path` match: the formatted fragment and
the letter recorded as the new previous command. -/
def serializeOne (cmd : Command) (prev_cmd : Option Char) (precision : Nat) : List Char × Char :=
  match cmd with
  | .MoveTo rel x y =>
    let c := if rel then 'm' else 'M'
    (format_cmd c prev_cmd [x, y] precision, c)
  | .LineTo rel x y =>
    let c := if rel then 'l' else 'L'
    (format_cmd c prev_cmd [x, y] precision, c)
  | .HorizontalTo rel x =>
    let c := if rel then 'h' else 'H'
    (format_cmd c prev_cmd [x] precision, c)
  | .VerticalTo rel y =>
    let c := if rel then 'v' else 'V'
    (format_cmd c prev_cmd [y] precision, c)
  | .CurveTo rel x1 y1 x2 y2 x y =>
    let c := if rel then 'c' else 'C'
    (format_cmd c prev_cmd [x1, y1, x2, y2, x, y] precision, c)
  | .SmoothCurveTo rel x2 y2 x y =>
    let c := if rel then 's' else 'S'
    (format_cmd c prev_cmd [x2, y2, x, y] precision, c)
  | .QuadTo rel x1 y1 x y =>
    let c := if rel then 'q' else 'Q'
    (format_cmd c prev_cmd [x1, y1, x, y] precision, c)
  | .SmoothQuadTo rel x y =>
    let c := if rel then 't' else 'T'
    (format_cmd c prev_cmd [x, y] precision, c)
  | .Arc rel rx ry xr la sw x y =>
    let c := if rel then 'a' else 'A'
    (format_arc c prev_cmd rx ry xr la sw x y precision, c)
  | .ClosePath =>
    (format_cmd 'z' prev_cmd [] precision, 'z')

def serialize_path_go (precision : Nat) : List Command → Option Char → List Char → List Char
  | [], _, out => out
  | cmd :: rest, prev_cmd, out =>
    let (c, new_cmd) := serializeOne cmd prev_cmd precision
    let out :=
      match out.getLast?, c.head? with
      | some last, some first => if needsSpaceBoth last first then out ++ [' '] ++ c else out ++ c
      | _, _ => out ++ c
    serialize_path_go precision rest (some new_cmd) out

/-- `serialize_path` from `src/path.rs`. -/
def serialize_path (commands : List Command) (precision : Nat) : String :=
  String.mk (serialize_path_go precision commands none [])

def asciiWs (c : Char) : Bool :=
  c == ' ' || c == '\t' || c == '\n' || c == '\r' || c == '\x0c'

def skipWs (l : List Char) : List Char := l.dropWhile asciiWs

/-- `skip_whitespace_and_comma`: whitespace, at most one comma, whitespace. -/
def skipWsComma (l : List Char) : List Char :=
  match skipWs l with
  | ',' :: t => skipWs t
  | other => other

/-- The token scan of `PathParser::parse_number`: optional sign, integer
digits, optional fraction, optional exponent (the `e` is consumed even when
no digit follows, exactly as in the source). -/
def scanNumberToken (l : List Char) : List Char × List Char :=
  let (sgn, r1) :=
    match l with
    | c :: t => if c == '-' || c == '+' then ([c], t) else (([] : List Char), l)
    | [] => ([], [])
  let d1 := r1.takeWhile Char.isDigit
  let r2 := r1.dropWhile Char.isDigit
  let (frac, r3) :=
    match r2 with
    | '.' :: t => ('.' :: t.takeWhile Char.isDigit, t.dropWhile Char.isDigit)
    | _ => (([] : List Char), r2)
  let (expo, r4) :=
    match r3 with
    | c :: t =>
      if c == 'e' || c == 'E' then
        let (es, t1) :=
          match t with
          | c2 :: t2 => if c2 == '-' || c2 == '+' then ([c2], t2) else (([] : List Char), t)
          | [] => ([], t)
        (c :: es ++ t1.takeWhile Char.isDigit, t1.dropWhile Char.isDigit)
      else (([] : List Char), r3)
    | [] => ([], r3)
  (sgn ++ d1 ++ frac ++ expo, r4)

def digitsVal (l : List Char) : Nat :=
  l.foldl (fun acc c => acc * 10 + (c.toNat - '0'.toNat)) 0

/-- Model of Rust `str::parse::<f64>` on a scanned number token, producing the
exact decimal value: at least one mantissa digit is required, and an exponent
marker must be followed by at least one digit. -/
def fpOfToken (l : List Char) : Option Fp :=
  let (neg, r1) :=
    match l with
    | '-' :: t => (true, t)
    | '+' :: t => (false, t)
    | _ => (false, l)
  let intD := r1.takeWhile Char.isDigit
  let r2 := r1.dropWhile Char.isDigit
  let (fracD, r3) :=
    match r2 with
    | '.' :: t => (t.takeWhile Char.isDigit, t.dropWhile Char.isDigit)
    | _ => (([] : List Char), r2)
  if intD.isEmpty && fracD.isEmpty then none
  else
    match r3 with
    | [] =>
      let m : Int := (digitsVal (intD ++ fracD) : Int)
      let m := if neg then -m else m
      some ⟨m, fracD.length⟩
    | e :: t =>
      if e == 'e' || e == 'E' then
        let (eneg, t1) :=
          match t with
          | '-' :: t2 => (true, t2)
          | '+' :: t2 => (false, t2)
          | _ => (false, t)
        let expD := t1.takeWhile Char.isDigit
        if expD.isEmpty || !(t1.dropWhile Char.isDigit).isEmpty then none
        else
          let m : Int := (digitsVal (intD ++ fracD) : Int)
          let m := if neg then -m else m
          let ev := digitsVal expD
          if eneg then some ⟨m, fracD.length + ev⟩
          else some ⟨m * (10 : Int) ^ ev, fracD.length⟩
      else none

/-- `PathParser::parse_number`. -/
def parse_number (l : List Char) : Except PathErr (Fp × List Char) :=
  let l1 := skipWsComma l
  let (tok, rest) := scanNumberToken l1
  if tok.isEmpty then .error (.invalidPath "Expected number")
  else
    match fpOfToken tok with
    | some v => .ok (v, rest)
    | none => .error (.invalidPath "Invalid number")

/-- `PathParser::parse_flag`. -/
def parse_flag (l : List Char) : Except PathErr (Bool × List Char) :=
  match skipWsComma l with
  | '0' :: t => .ok (false, t)
  | '1' :: t => .ok (true, t)
  | _ :: _ => .error (.invalidPath "Expected flag (0 or 1)")
  | [] => .error (.invalidPath "Expected flag")

/-- `PathParser::parse_command`. -/
def parse_command (cmd : Char) (l : List Char) : Except PathErr (Command × List Char) :=
  let rel := cmd.isLower
  match cmd.toLower with
  | 'm' => do
    let (x, l) ← parse_number l
    let (y, l) ← parse_number (skipWsComma l)
    .ok (.MoveTo rel x y, l)
  | 'l' => do
    let (x, l) ← parse_number l
    let (y, l) ← parse_number (skipWsComma l)
    .ok (.LineTo rel x y, l)
  | 'h' => do
    let (x, l) ← parse_number l
    .ok (.HorizontalTo rel x, l)
  | 'v' => do
    let (y, l) ← parse_number l
    .ok (.VerticalTo rel y, l)
  | 'c' => do
    let (x1, l) ← parse_number l
    let (y1, l) ← parse_number (skipWsComma l)
    let (x2, l) ← parse_number (skipWsComma l)
    let (y2, l) ← parse_number (skipWsComma l)
    let (x, l) ← parse_number (skipWsComma l)
    let (y, l) ← parse_number (skipWsComma l)
    .ok (.CurveTo rel x1 y1 x2 y2 x y, l)
  | 's' => do
    let (x2, l) ← parse_number l
    let (y2, l) ← parse_number (skipWsComma l)
    let (x, l) ← parse_number (skipWsComma l)
    let (y, l) ← parse_number (skipWsComma l)
    .ok (.SmoothCurveTo rel x2 y2 x y, l)
  | 'q' => do
    let (x1, l) ← parse_number l
    let (y1, l) ← parse_number (skipWsComma l)
    let (x, l) ← parse_number (skipWsComma l)
    let (y, l) ← parse_number (skipWsComma l)
    .ok (.QuadTo rel x1 y1 x y, l)
  | 't' => do
    let (x, l) ← parse_number l
    let (y, l) ← parse_number (skipWsComma l)
    .ok (.SmoothQuadTo rel x y, l)
  | 'a' => do
    let (rx, l) ← parse_number l
    let (ry, l) ← parse_number (skipWsComma l)
    let (xr, l) ← parse_number (skipWsComma l)
    let (la, l) ← parse_flag (skipWsComma l)
    let (sw, l) ← parse_flag (skipWsComma l)
    let (x, l) ← parse_number (skipWsComma l)
    let (y, l) ← parse_number (skipWsComma l)
    .ok (.Arc rel rx ry xr la sw x y, l)
  | 'z' => .ok (.ClosePath, l)
  | _ => .error (.invalidPath "Unknown command")

/-- The `while` loop of `PathParser::parse`, with explicit fuel. -/
def parse_path_go : Nat → List Char → Option Char → List Command → Except PathErr (List Command)
  | 0, _, _, _ => .error .fuelExhausted
  | fuel + 1, l, last_cmd, acc =>
    match l with
    | [] => .ok acc.reverse
    | c :: t =>
      let step : Except PathErr (Char × Option Char × List Char) :=
        if c.isAlpha then .ok (c, some c, t)
        else
          match last_cmd with
          | some 'M' => .ok ('L', last_cmd, c :: t)
          | some 'm' => .ok ('l', last_cmd, c :: t)
          | some c0 => .ok (c0, last_cmd, c :: t)
          | none => .error (.invalidPath "Expected command letter")
      match step with
      | .error e => .error e
      | .ok (cmd, new_last, l1) =>
        match parse_command cmd l1 with
        | .error e => .error e
        | .ok (parsed, l2) => parse_path_go fuel (skipWsComma l2) new_last (parsed :: acc)

/-- `parse_path` from `src/path.rs` (fuel `length + 1` suffices for every
terminating run of the Rust loop; see the module comment). -/
def parse_path (d : String) : Except PathErr (List Command) :=
  parse_path_go (d.toList.length + 1) (skipWs d.toList) none []

example : parse_path "M10 20 L30 40" =
    .ok [.MoveTo false ⟨10, 0⟩ ⟨20, 0⟩, .LineTo false ⟨30, 0⟩ ⟨40, 0⟩] := by decide

example : parse_path "M10 20 30 40" =
    .ok [.MoveTo false ⟨10, 0⟩ ⟨20, 0⟩, .LineTo false ⟨30, 0⟩ ⟨40, 0⟩] := by decide

example : serialize_path [.MoveTo false ⟨10, 0⟩ ⟨20, 0⟩, .LineTo false ⟨30, 0⟩ ⟨40, 0⟩,
    .ClosePath] 0 = "M10 20 30 40z" := by decide

example : serialize_path [.MoveTo false ⟨5, 1⟩ ⟨5, 1⟩, .LineTo false ⟨-5, 1⟩ ⟨-5, 1⟩] 1 =
    "M.5 .5-.5-.5" := by decide

example : String.mk (format_number ⟨1235, 3⟩ 2) = "1.24" := by decide

example : String.mk (format_number ⟨15, 1⟩ 2) = "1.5" := by decide

/-! ## Document model (`src/ast.rs`)

`QName.prefix` is called `pfx` here and `QName.local` is called `localName`
(`local` is reserved in Lean); everything else keeps the source names. -/

structure QName where
  pfx : Option String
  localName : String
deriving DecidableEq, Repr

def QName.newQ (l : String) : QName := ⟨none, l⟩

def QName.with_prefix_ (p l : String) : QName := ⟨some p, l⟩

/-- `QName::parse`: split at the first `:` when present. -/
def QName.parseQ (s : String) : QName :=
  match splitOnceChar ':' s.toList with
  | some (p, l) => ⟨some (String.mk p), String.mk l⟩
  | none => ⟨none, s⟩

/-- `QName::is_xmlns`: a namespace declaration (`xmlns` or `xmlns:prefix`). -/
def QName.is_xmlns (n : QName) : Bool :=
  n.pfx == some "xmlns" || (n.pfx == none && n.localName == "xmlns")

/-- `QName::full_name`. -/
def QName.full_name (n : QName) : String :=
  match n.pfx with
  | some p => p ++ ":" ++ n.localName
  | none => n.localName

structure Attribute where
  name : QName
  value : String
deriving DecidableEq, Repr

/-- `Attribute::new`: an unprefixed attribute. -/
def Attribute.newA (n v : String) : Attribute := ⟨QName.newQ n, v⟩

mutual
inductive Element where
  | mk (name : QName) (attributes : List Attribute) (children : List Node)

inductive Node where
  | element : Element → Node
  | text : String → Node
  | comment : String → Node
  | cdata : String → Node
  | pi (target : String) (content : Option String) : Node
end

def Element.name : Element → QName
  | .mk n _ _ => n

def Element.attributes : Element → List Attribute
  | .mk _ a _ => a

def Element.children : Element → List Node
  | .mk _ _ c => c

structure XmlDeclaration where
  version : String
  encoding : Option String
  standalone : Option Bool
deriving DecidableEq, Repr

structure Document where
  xml_declaration : Option XmlDeclaration
  doctype : Option String
  root : Element

/-- `Element::get_attr` on the attribute list: value of the first attribute
whose local name matches, regardless of prefix. -/
def get_attr_list : List Attribute → String → Option String
  | [], _ => none
  | a :: rest, n => if a.name.localName == n then some a.value else get_attr_list rest n

/-- `Element::set_attr` on the attribute list: overwrite the value of the
first attribute with the given local name (keeping its name), else append a
new unprefixed attribute. -/
def set_attr_list : List Attribute → String → String → List Attribute
  | [], n, v => [Attribute.newA n v]
  | a :: rest, n, v =>
    if a.name.localName == n then ⟨a.name, v⟩ :: rest else a :: set_attr_list rest n v

/-- `Element::remove_attr` on the attribute list: drop every attribute with
the given local name. -/
def remove_attr_list : List Attribute → String → List Attribute
  | [], _ => []
  | a :: rest, n =>
    if a.name.localName == n then remove_attr_list rest n else a :: remove_attr_list rest n

def Element.get_attr (e : Element) (n : String) : Option String :=
  get_attr_list e.attributes n

def Element.set_attr (e : Element) (n v : String) : Element :=
  .mk e.name (set_attr_list e.attributes n v) e.children

def Element.remove_attr (e : Element) (n : String) : Element :=
  .mk e.name (remove_attr_list e.attributes n) e.children

/-- `Element::is`. -/
def Element.isNamed (e : Element) (n : String) : Bool := e.name.localName == n

/-! ## Options (`src/lib.rs`) -/

structure Options where
  precision : Nat
  remove_comments : Bool
  remove_metadata : Bool
  remove_xml_declaration : Bool
  remove_doctype : Bool
  remove_unused_namespaces : Bool
  collapse_groups : Bool
  remove_hidden : Bool
  remove_empty : Bool
  minify_colors : Bool
  remove_defaults : Bool
  minify_paths : Bool
  minify_styles : Bool
  merge_paths : Bool
  sort_attrs : Bool
deriving Repr

/-- `Options::default`. -/
def default_options : Options :=
  { precision := 2
    remove_comments := true
    remove_metadata := true
    remove_xml_declaration := true
    remove_doctype := true
    remove_unused_namespaces := true
    collapse_groups := true
    remove_hidden := true
    remove_empty := true
    minify_colors := true
    remove_defaults := true
    minify_paths := true
    minify_styles := true
    merge_paths := false
    sort_attrs := true }

/-! ## Optimizer (`src/optimize.rs`)

Every pass is translated from `src/optimize.rs`.  The Rust passes first
`retain` a child list with a predicate that depends only on the child itself
and then recurse into the surviving child elements (or, for the post-order
passes `remove_empty` and `collapse_groups`, recurse first and then decide);
the per-child decision and the recursion are independent, so each pass is
written here as one traversal of the child list that makes exactly the same
decisions in the same order.  `minify_color` byte-slices a string and can
panic; the panic is modelled as `none` and propagated through `minify_colors`
and `optimize`.  The `HashSet` of used prefixes is modelled as a list queried
only through membership. -/

def metadata_elements : List String := ["metadata", "title", "desc"]

/-- `is_id_referenced` from `src/optimize.rs`: reference tracking is not
implemented, every id is conservatively considered referenced. -/
def is_id_referenced (_id : String) : Bool := true

/-- Child-element retain predicate of `remove_metadata`. -/
def keepElemMetadata (e : Element) : Bool :=
  let full := e.name.full_name
  !(metadata_elements.any fun nm => e.name.localName == nm) &&
  !(strStartsWith full "sodipodi:") &&
  !(strStartsWith full "inkscape:") &&
  !(e.name.pfx == some "sodipodi") &&
  !(e.name.pfx == some "inkscape")

/-- Attribute retain predicate of `remove_metadata`. -/
def keepAttrMetadata (a : Attribute) : Bool :=
  !(strStartsWith a.name.full_name "sodipodi:") &&
  !(strStartsWith a.name.full_name "inkscape:") &&
  !(a.name.localName == "data-name") &&
  (!(a.name.localName == "id") || is_id_referenced a.value)

mutual
def remove_metadata : Element → Element
  | .mk n a cs => .mk n (a.filter keepAttrMetadata) (remove_metadata_children cs)

def remove_metadata_children : List Node → List Node
  | [] => []
  | .element e :: cs =>
    if keepElemMetadata e then .element (remove_metadata e) :: remove_metadata_children cs
    else remove_metadata_children cs
  | c :: cs => c :: remove_metadata_children cs
end

mutual
/-- `collect_used_prefixes`: the element's prefix and the prefixes of all
non-namespace-declaration attributes, over the whole subtree. -/
def collect_used_prefixes : Element → List (Option String)
  | .mk n a cs =>
    n.pfx ::
      ((a.filter fun at_ => at_.name.pfx.isSome && !at_.name.is_xmlns).map fun at_ => at_.name.pfx)
      ++ collect_used_prefixes_children cs

def collect_used_prefixes_children : List Node → List (Option String)
  | [] => []
  | .element e :: cs => collect_used_prefixes e ++ collect_used_prefixes_children cs
  | _ :: cs => collect_used_prefixes_children cs
end

/-- `remove_unused_namespaces`: prune `xmlns:P` declarations whose prefix is
unused.  Note that only the attribute list of the element it is called on
(the document root) is filtered; there is no recursion into children. -/
def remove_unused_namespaces (e : Element) : Element :=
  let used := collect_used_prefixes e
  match e with
  | .mk n a cs =>
    .mk n
      (a.filter fun attr =>
        if attr.name.localName == "xmlns" && attr.name.pfx == none then true
        else if attr.name.pfx == some "xmlns" then used.contains (some attr.name.localName)
        else true)
      cs

mutual
def remove_comments : Element → Element
  | .mk n a cs => .mk n a (remove_comments_children cs)

def remove_comments_children : List Node → List Node
  | [] => []
  | .comment _ :: cs => remove_comments_children cs
  | .element e :: cs => .element (remove_comments e) :: remove_comments_children cs
  | c :: cs => c :: remove_comments_children cs
end

/-- Model of `opacity.parse::<f64>()` in `is_hidden`: `fpOfToken` on the whole
string.  (`inf`/`nan` parse in Rust but are never equal to `0.0`, and this
model returns `none` for them, so the comparison with zero agrees.) -/
def parse_f64_model (s : String) : Option Fp := fpOfToken s.toList

/-- The opacity check of `is_hidden`: `opacity.parse::<f64>().ok() == Some(0.0)`. -/
def opacityIsZero (e : Element) : Bool :=
  match e.get_attr "opacity" with
  | some op => (parse_f64_model op).any fun v => v.num == 0
  | none => false

/-- `is_hidden` from `src/optimize.rs`. -/
def is_hidden (e : Element) : Bool :=
  if e.get_attr "display" == some "none" then true
  else if e.get_attr "visibility" == some "hidden" then true
  else if opacityIsZero e then true
  else
    match e.get_attr "style" with
    | some style => strContains style "display:none" || strContains style "display: none"
    | none => false

mutual
def remove_hidden : Element → Element
  | .mk n a cs => .mk n a (remove_hidden_children cs)

def remove_hidden_children : List Node → List Node
  | [] => []
  | .element e :: cs =>
    if is_hidden e then remove_hidden_children cs
    else .element (remove_hidden e) :: remove_hidden_children cs
  | c :: cs => c :: remove_hidden_children cs
end

def container_elements : List String :=
  ["g", "defs", "symbol", "marker", "clipPath", "mask", "pattern"]

mutual
/-- `remove_empty` (post-order: children are pruned before the parent decides
whether a container child is empty). -/
def remove_empty : Element → Element
  | .mk n a cs => .mk n a (remove_empty_children cs)

def remove_empty_children : List Node → List Node
  | [] => []
  | .element e :: cs =>
    let e' := remove_empty e
    if container_elements.contains e'.name.localName then
      if !e'.children.isEmpty || (Element.get_attr e' "id").isSome then
        .element e' :: remove_empty_children cs
      else remove_empty_children cs
    else .element e' :: remove_empty_children cs
  | c :: cs => c :: remove_empty_children cs
end

def dominated_attrs : List String := ["class", "style", "transform", "fill", "stroke", "opacity"]

/-- `can_collapse_group`. -/
def can_collapse_group (e : Element) : Bool :=
  if !(e.name.localName == "g") then false
  else if (e.get_attr "id").isSome then false
  else if e.attributes.any (fun a => dominated_attrs.contains a.name.localName) then false
  else e.children.length == 1

mutual
/-- `collapse_groups` (post-order: children are collapsed first, then each
collapsible child group is replaced by its children). -/
def collapse_groups : Element → Element
  | .mk n a cs => .mk n a (collapse_groups_children cs)

def collapse_groups_children : List Node → List Node
  | [] => []
  | .element e :: cs =>
    let e' := collapse_groups e
    if can_collapse_group e' then e'.children ++ collapse_groups_children cs
    else .element e' :: collapse_groups_children cs
  | c :: cs => c :: collapse_groups_children cs
end

mutual
/-- `minify_paths`: rewrite the `d` attribute of every `path` element whose
data parses; malformed data is left untouched. -/
def minify_paths (precision : Nat) : Element → Element
  | .mk n a cs =>
    let a' :=
      if n.localName == "path" then
        match get_attr_list a "d" with
        | some d =>
          match parse_path d with
          | .ok p => set_attr_list a "d" (serialize_path p precision)
          | .error _ => a
        | none => a
      else a
    .mk n a' (minify_paths_children precision cs)

def minify_paths_children (precision : Nat) : List Node → List Node
  | [] => []
  | .element e :: cs => .element (minify_paths precision e) :: minify_paths_children precision cs
  | c :: cs => c :: minify_paths_children precision cs
end

def isHexDigitChar (c : Char) : Bool :=
  c.isDigit || ('a' ≤ c && c ≤ 'f') || ('A' ≤ c && c ≤ 'F')

def hexVal (c : Char) : Nat :=
  if c.isDigit then c.toNat - '0'.toNat
  else if 'a' ≤ c && c ≤ 'f' then c.toNat - 'a'.toNat + 10
  else c.toNat - 'A'.toNat + 10

def hexDigitChar (n : Nat) : Char := ("0123456789abcdef".toList).getD n '0'

/-- `u8::from_str_radix(s, 16).ok()`: optional `+`, then hex digits. -/
def hexPairVal (cs : List Char) : Option Nat :=
  let ds := match cs with
            | '+' :: t => t
            | _ => cs
  if ds.isEmpty then none
  else if ds.all isHexDigitChar then
    let v := ds.foldl (fun acc c => acc * 16 + hexVal c) 0
    if v < 256 then some v else none
  else none

/-- Take the characters spanning exactly `n` UTF-8 bytes; `none` when the
requested length does not fall on a character boundary or runs past the end
(a Rust byte-slice panic). -/
def takeBytes : List Char → Nat → Option (List Char)
  | _, 0 => some []
  | [], _ + 1 => none
  | c :: cs, n + 1 =>
    let w := utf8Width c
    if w ≤ n + 1 then (takeBytes cs (n + 1 - w)).map (c :: ·) else none

def dropBytes : List Char → Nat → Option (List Char)
  | l, 0 => some l
  | [], _ + 1 => none
  | c :: cs, n + 1 =>
    let w := utf8Width c
    if w ≤ n + 1 then dropBytes cs (n + 1 - w) else none

/-- Rust `&s[i..i+len]` on the UTF-8 representation: `none` models the
boundary panic. -/
def sliceBytes (l : List Char) (i len : Nat) : Option (List Char) :=
  (dropBytes l i).bind fun t => takeBytes t len

/-- The exact-match arm of `minify_color`. -/
def named_color_shortcut (lower : String) : Option String :=
  if lower == "white" || lower == "#ffffff" || lower == "#fff" then some "#fff"
  else if lower == "black" || lower == "#000000" || lower == "#000" then some "#000"
  else if lower == "#ff0000" || lower == "#f00" then some "red"
  else if lower == "#0000ff" || lower == "#00f" then some "blue"
  else if lower == "red" then some "red"
  else if lower == "blue" then some "blue"
  else none

/-- `minify_color` from `src/optimize.rs`.  `none` models a Rust panic: the
`#RRGGBB` arm byte-slices `&lower[1..]` at offsets 0, 2, 4, which panics when
an offset is not a character boundary of the (length-7-bytes) value. -/
def minify_color (color0 : String) : Option String :=
  let color := strTrim color0
  let lower := strToLower color
  match named_color_shortcut lower with
  | some s => some s
  | none =>
    if utf8ByteLen color.toList == 7 && strStartsWith color "#" then
      let hex := lower.toList.drop 1
      match sliceBytes hex 0 2 with
      | none => none
      | some s0 =>
        match sliceBytes hex 2 2 with
        | none => none
        | some s1 =>
          match sliceBytes hex 4 2 with
          | none => none
          | some s2 =>
            match [s0, s1, s2].filterMap hexPairVal with
            | [r, g, b] =>
              if r / 16 == r % 16 && g / 16 == g % 16 && b / 16 == b % 16 then
                some (String.mk ['#', hexDigitChar (r % 16), hexDigitChar (g % 16),
                  hexDigitChar (b % 16)])
              else some color
            | _ => some color
    else some color

def color_props : List String :=
  ["fill", "stroke", "color", "stop-color", "flood-color", "lighting-color"]

def minify_style_colors_go : List (List Char) → List Char → Option (List Char)
  | [], acc => some acc
  | decl :: rest, acc =>
    let decl := trimChars decl
    if decl.isEmpty then minify_style_colors_go rest acc
    else
      let acc := if acc.isEmpty then acc else acc ++ [';']
      match splitOnceChar ':' decl with
      | some (prop, value) =>
        let prop := trimChars prop
        let value := trimChars value
        let base := acc ++ prop ++ [':']
        if color_props.contains (String.mk prop) then
          match minify_color (String.mk value) with
          | some mv => minify_style_colors_go rest (base ++ mv.toList)
          | none => none
        else minify_style_colors_go rest (base ++ value)
      | none => minify_style_colors_go rest (acc ++ decl)

/-- `minify_style_colors`. -/
def minify_style_colors (style : String) : Option String :=
  (minify_style_colors_go (splitOnChar ';' style.toList) []).map String.mk

def color_attrs : List String :=
  ["fill", "stroke", "stop-color", "flood-color", "lighting-color", "color"]

/-- The attribute rewriting loop of `minify_colors`. -/
def minify_attr_colors : List Attribute → Option (List Attribute)
  | [] => some []
  | a :: rest =>
    if color_attrs.contains a.name.localName then
      match minify_color a.value with
      | some v => (minify_attr_colors rest).map (⟨a.name, v⟩ :: ·)
      | none => none
    else (minify_attr_colors rest).map (a :: ·)

mutual
/-- `minify_colors`: rewrite color attributes, then colors inside `style`,
then recurse. -/
def minify_colors : Element → Option Element
  | .mk n a cs =>
    match minify_attr_colors a with
    | none => none
    | some a1 =>
      let a2res :=
        match get_attr_list a1 "style" with
        | some style =>
          match minify_style_colors style with
          | some ns => some (set_attr_list a1 "style" ns)
          | none => none
        | none => some a1
      match a2res with
      | none => none
      | some a2 =>
        match minify_colors_children cs with
        | none => none
        | some cs' => some (.mk n a2 cs')

def minify_colors_children : List Node → Option (List Node)
  | [] => some []
  | .element e :: cs =>
    match minify_colors e with
    | none => none
    | some e' => (minify_colors_children cs).map (.element e' :: ·)
  | c :: cs => (minify_colors_children cs).map (c :: ·)
end

/-- The defaults of `is_default_value`, written as the §4.2 table: a triple
(element, attribute, value), where element `*` matches any element. -/
def default_attr_table : List (String × String × String) :=
  [("*", "version", "1.1"),
   ("*", "baseProfile", "full"),
   ("*", "preserveAspectRatio", "xMidYMid meet"),
   ("*", "fill-opacity", "1"),
   ("*", "stroke-opacity", "1"),
   ("*", "opacity", "1"),
   ("*", "stroke-width", "1"),
   ("*", "stroke-linecap", "butt"),
   ("*", "stroke-linejoin", "miter"),
   ("*", "stroke-miterlimit", "4"),
   ("*", "fill-rule", "nonzero"),
   ("*", "clip-rule", "nonzero"),
   ("*", "font-style", "normal"),
   ("*", "font-weight", "normal"),
   ("*", "font-weight", "400"),
   ("*", "text-anchor", "start"),
   ("*", "dominant-baseline", "auto"),
   ("*", "visibility", "visible"),
   ("*", "display", "inline"),
   ("*", "overflow", "visible"),
   ("rect", "rx", "0"), ("rect", "ry", "0"),
   ("circle", "cx", "0"), ("circle", "cy", "0"),
   ("ellipse", "cx", "0"), ("ellipse", "cy", "0"),
   ("line", "x1", "0"), ("line", "y1", "0"), ("line", "x2", "0"), ("line", "y2", "0")]

/-- `is_default_value` from `src/optimize.rs` (the `match` written as a table
lookup with the same arms). -/
def is_default_value (element attr value : String) : Bool :=
  default_attr_table.any fun t =>
    (t.1 == "*" || t.1 == element) && t.2.1 == attr && t.2.2 == value

mutual
def remove_default_attrs : Element → Element
  | .mk n a cs =>
    .mk n (a.filter fun attr => !is_default_value n.localName attr.name.localName attr.value)
      (remove_default_attrs_children cs)

def remove_default_attrs_children : List Node → List Node
  | [] => []
  | .element e :: cs => .element (remove_default_attrs e) :: remove_default_attrs_children cs
  | c :: cs => c :: remove_default_attrs_children cs
end

/-- `is_default_style_value`. -/
def is_default_style_value (prop value : String) : Bool :=
  (prop == "fill-opacity" && value == "1") ||
  (prop == "stroke-opacity" && value == "1") ||
  (prop == "opacity" && value == "1") ||
  (prop == "stroke-width" && value == "1") ||
  (prop == "font-style" && value == "normal") ||
  (prop == "font-weight" && value == "normal") ||
  (prop == "font-weight" && value == "400")

def minify_style_go : List (List Char) → List (List Char)
  | [] => []
  | decl :: rest =>
    let decl := trimChars decl
    if decl.isEmpty then minify_style_go rest
    else
      match splitOnceChar ':' decl with
      | some (prop, value) =>
        let prop := trimChars prop
        let value := trimChars value
        if is_default_style_value (String.mk prop) (String.mk value) then minify_style_go rest
        else (prop ++ [':'] ++ value) :: minify_style_go rest
      | none => minify_style_go rest

/-- `minify_style`: drop defaulted declarations (and declarations without a
colon), re-emit `prop:value` joined by `;`. -/
def minify_style (style : String) : String :=
  String.mk (List.intercalate [';'] (minify_style_go (splitOnChar ';' style.toList)))

mutual
/-- `minify_styles`: rewrite the `style` attribute (dropping it when the
minified form is empty), then recurse. -/
def minify_styles : Element → Element
  | .mk n a cs =>
    let a' :=
      match get_attr_list a "style" with
      | some style =>
        let minified := minify_style style
        if minified.toList.isEmpty then remove_attr_list a "style"
        else set_attr_list a "style" minified
      | none => a
    .mk n a' (minify_styles_children cs)

def minify_styles_children : List Node → List Node
  | [] => []
  | .element e :: cs => .element (minify_styles e) :: minify_styles_children cs
  | c :: cs => c :: minify_styles_children cs
end

mutual
/-- `cleanup_whitespace`: drop text nodes whose trimmed value is empty. -/
def cleanup_whitespace : Element → Element
  | .mk n a cs => .mk n a (cleanup_whitespace_children cs)

def cleanup_whitespace_children : List Node → List Node
  | [] => []
  | .text t :: cs =>
    if (trimChars t.toList).isEmpty then cleanup_whitespace_children cs
    else .text t :: cleanup_whitespace_children cs
  | .element e :: cs => .element (cleanup_whitespace e) :: cleanup_whitespace_children cs
  | c :: cs => c :: cleanup_whitespace_children cs
end

/-- `optimize` from `src/optimize.rs`: the passes in their exact order.
`none` models a panic escaping from `minify_colors`. -/
def optimize (doc : Document) (options : Options) : Option Document :=
  let r := doc.root
  let r := if options.remove_metadata then remove_metadata r else r
  let r := if options.remove_unused_namespaces then remove_unused_namespaces r else r
  let r := if options.remove_comments then remove_comments r else r
  let r := if options.remove_hidden then remove_hidden r else r
  let r := if options.remove_empty then remove_empty r else r
  let r := if options.collapse_groups then collapse_groups r else r
  let r := if options.minify_paths then minify_paths options.precision r else r
  match (if options.minify_colors then minify_colors r else some r) with
  | none => none
  | some r =>
    let r := if options.remove_defaults then remove_default_attrs r else r
    let r := if options.minify_styles then minify_styles r else r
    let r := cleanup_whitespace r
    some { doc with root := r }

example : minify_color "#ffffff" = some "#fff" := by decide
example : minify_color "#ff0000" = some "red" := by decide
example : minify_color "#aabbcc" = some "#abc" := by decide
example : minify_color "#abcdef" = some "#abcdef" := by decide
example : is_default_value "svg" "version" "1.1" = true := by decide
example : is_default_value "rect" "opacity" "1" = true := by decide
example : is_default_value "rect" "opacity" "0.5" = false := by decide

/-! ## Serializer (`src/serialize.rs`) -/

def escape_attr_chars : List Char → List Char
  | [] => []
  | '"' :: cs => "&quot;".toList ++ escape_attr_chars cs
  | '&' :: cs => "&amp;".toList ++ escape_attr_chars cs
  | '<' :: cs => "&lt;".toList ++ escape_attr_chars cs
  | '>' :: cs => "&gt;".toList ++ escape_attr_chars cs
  | c :: cs => c :: escape_attr_chars cs

def escape_text_chars : List Char → List Char
  | [] => []
  | '&' :: cs => "&amp;".toList ++ escape_text_chars cs
  | '<' :: cs => "&lt;".toList ++ escape_text_chars cs
  | '>' :: cs => "&gt;".toList ++ escape_text_chars cs
  | c :: cs => c :: escape_text_chars cs

def charListCmp : List Char → List Char → Ordering
  | [], [] => .eq
  | [], _ :: _ => .lt
  | _ :: _, [] => .gt
  | a :: as, b :: bs =>
    match compare a.toNat b.toNat with
    | .eq => charListCmp as bs
    | o => o

/-- Rust `String` ordering (bytewise = codepointwise lexicographic). -/
def strCmp (a b : String) : Ordering := charListCmp a.toList b.toList

/-- The attribute comparator of `serialize_element`: namespace declarations
first, then lexicographic by full name. -/
def attr_cmp (a b : Attribute) : Ordering :=
  match a.name.is_xmlns, b.name.is_xmlns with
  | true, false => .lt
  | false, true => .gt
  | _, _ => strCmp a.name.full_name b.name.full_name

/-- Stable insertion into a sorted list (equal elements keep their original
relative order, matching Rust's stable `sort_by`). -/
def insertStable (cmp : α → α → Ordering) (x : α) : List α → List α
  | [] => [x]
  | y :: ys => if cmp x y = .gt then y :: insertStable cmp x ys else x :: y :: ys

/-- Stable sort by a comparator (Rust `slice::sort_by` is a stable sort). -/
def sortStable (cmp : α → α → Ordering) : List α → List α
  | [] => []
  | x :: xs => insertStable cmp x (sortStable cmp xs)

mutual
/-- `serialize_element` from `src/serialize.rs`. -/
def serialize_element (options : Options) : Element → List Char
  | .mk n a cs =>
    let attrs := if options.sort_attrs then sortStable attr_cmp a else a
    let attrsOut := attrs.foldl
      (fun out attr =>
        out ++ [' '] ++ attr.name.full_name.toList ++ ['=', '"']
          ++ escape_attr_chars attr.value.toList ++ ['"'])
      ([] : List Char)
    let opening := '<' :: n.full_name.toList ++ attrsOut
    if cs.isEmpty then opening ++ ['/', '>']
    else
      opening ++ ['>'] ++ serialize_children options cs
        ++ ['<', '/'] ++ n.full_name.toList ++ ['>']

def serialize_children (options : Options) : List Node → List Char
  | [] => []
  | c :: cs => serialize_node options c ++ serialize_children options cs

/-- `serialize_node` from `src/serialize.rs`. -/
def serialize_node (options : Options) : Node → List Char
  | .element e => serialize_element options e
  | .text t =>
    let tr := trimChars t.toList
    if tr.isEmpty then [] else escape_text_chars tr
  | .comment c =>
    if options.remove_comments then [] else "<!--".toList ++ c.toList ++ "-->".toList
  | .cdata d => "<![CDATA[".toList ++ d.toList ++ "]]>".toList
  | .pi t c =>
    "<?".toList ++ t.toList
      ++ (match c with
          | some s => ' ' :: s.toList
          | none => [])
      ++ "?>".toList
end

/-- `serialize` from `src/serialize.rs`. -/
def serialize (doc : Document) (options : Options) : String :=
  let declPart : List Char :=
    if !options.remove_xml_declaration then
      match doc.xml_declaration with
      | some d =>
        "<?xml version=".toList ++ ['"'] ++ d.version.toList ++ ['"']
          ++ (match d.encoding with
              | some enc => " encoding=".toList ++ ['"'] ++ enc.toList ++ ['"']
              | none => [])
          ++ (match d.standalone with
              | some b =>
                " standalone=".toList ++ ['"'] ++ (if b then "yes" else "no").toList ++ ['"']
              | none => [])
          ++ "?>".toList
      | none => []
    else []
  let dtPart : List Char :=
    if !options.remove_doctype then
      match doc.doctype with
      | some dt => "<!DOCTYPE ".toList ++ dt.toList ++ ['>']
      | none => []
    else []
  String.mk (declPart ++ dtPart ++ serialize_element options doc.root)

/-! ## Parser (`src/parse.rs`)

`parse_svg`, `parse_element`, `parse_empty_element` and `parse_element_start`
are translated from `src/parse.rs`.  The XML event stream they consume is
produced by the external `quick_xml` crate; `read_event` below is modelled
from the specification (§4.1): the tokenizer yields declaration, doctype,
element-start, empty-element, element-end, text, comment, CDATA,
processing-instruction and EOF events.  (The model reads a tag up to the next
`>` and does not verify that end-tag names match start-tag names; every input
evaluated in the theorems below is well-formed, where the model and
`quick_xml` agree.)  The event loops carry fuel `length + 1`: every event
except EOF consumes at least one character. -/

inductive XmlEvent where
  | decl (version : String) (encoding : Option String) (standalone : Option String)
  | doctype (s : String)
  | start (name : String) (attrs : List (String × String))
  | emptyTag (name : String) (attrs : List (String × String))
  | endTag (name : String)
  | text (raw : String)
  | comment (s : String)
  | cdata (s : String)
  | pi (content : String)
  | eof

inductive SvagErr where
  | xmlParse (msg : String)
  | invalidSvg (msg : String)
  | invalidPath (msg : String)
  | utf8 (msg : String)
  | panicked
deriving DecidableEq, Repr

/-- Split a character list at the first occurrence of `stop`, dropping the
separator; `none` when `stop` does not occur. -/
def splitUntil (stop : List Char) : List Char → Option (List Char × List Char)
  | [] => none
  | c :: cs =>
    if isPrefixOfChars stop (c :: cs) then some ([], (c :: cs).drop stop.length)
    else (splitUntil stop cs).map fun p => (c :: p.1, p.2)

/-- XML entity unescaping for the five predefined entities (as performed by
the tokenizer's `unescape`); unknown entities are left verbatim. -/
def unescapeChars : List Char → List Char
  | [] => []
  | '&' :: 'a' :: 'm' :: 'p' :: ';' :: cs => '&' :: unescapeChars cs
  | '&' :: 'l' :: 't' :: ';' :: cs => '<' :: unescapeChars cs
  | '&' :: 'g' :: 't' :: ';' :: cs => '>' :: unescapeChars cs
  | '&' :: 'q' :: 'u' :: 'o' :: 't' :: ';' :: cs => '"' :: unescapeChars cs
  | '&' :: 'a' :: 'p' :: 'o' :: 's' :: ';' :: cs => '\'' :: unescapeChars cs
  | c :: cs => c :: unescapeChars cs

/-- Modelled from the spec: the attribute scan of the `quick_xml` tokenizer
inside a tag — `name="value"` pairs (single or double quotes) separated by
whitespace. -/
def parse_tag_attrs_go : Nat → List Char → Except SvagErr (List (String × String))
  | 0, _ => .error (.invalidSvg "Invalid attribute")
  | fuel + 1, l =>
    let l := skipWs l
    if l.isEmpty then .ok []
    else
      let name := l.takeWhile fun c => !(c == '=') && !asciiWs c
      if name.isEmpty then .error (.invalidSvg "Invalid attribute")
      else
        match skipWs (l.drop name.length) with
        | '=' :: r2 =>
          (match skipWs r2 with
           | '"' :: r3 =>
             match splitUntil ['"'] r3 with
             | none => .error (.invalidSvg "Invalid attribute")
             | some (v, r4) =>
               (parse_tag_attrs_go fuel r4).map ((String.mk name, String.mk v) :: ·)
           | '\'' :: r3 =>
             match splitUntil ['\''] r3 with
             | none => .error (.invalidSvg "Invalid attribute")
             | some (v, r4) =>
               (parse_tag_attrs_go fuel r4).map ((String.mk name, String.mk v) :: ·)
           | _ => .error (.invalidSvg "Invalid attribute"))
        | _ => .error (.invalidSvg "Invalid attribute")

def parse_tag_attrs (l : List Char) : Except SvagErr (List (String × String)) :=
  parse_tag_attrs_go (l.length + 1) l

def lookupAttr (attrs : List (String × String)) (k : String) : Option String :=
  (attrs.find? fun p => p.1 == k).map fun p => p.2

/-- Modelled from the spec: one step of the `quick_xml` event tokenizer. -/
def read_event (l : List Char) : Except SvagErr (XmlEvent × List Char) :=
  match l with
  | [] => .ok (.eof, [])
  | '<' :: '?' :: r2 =>
    (match splitUntil "?>".toList r2 with
     | none => .error (.xmlParse "Unexpected EOF in processing instruction")
     | some (content, r3) =>
       let target := content.takeWhile fun c => !asciiWs c
       if String.mk target == "xml" then
         match parse_tag_attrs (content.drop target.length) with
         | .error e => .error e
         | .ok attrs =>
           match lookupAttr attrs "version" with
           | none => .error (.xmlParse "XML declaration without version")
           | some v =>
             .ok (.decl v (lookupAttr attrs "encoding") (lookupAttr attrs "standalone"), r3)
       else .ok (.pi (String.mk content), r3))
  | '<' :: '!' :: '-' :: '-' :: r2 =>
    (match splitUntil "-->".toList r2 with
     | none => .error (.xmlParse "Unexpected EOF in comment")
     | some (content, r3) => .ok (.comment (String.mk content), r3))
  | '<' :: '!' :: '[' :: 'C' :: 'D' :: 'A' :: 'T' :: 'A' :: '[' :: r2 =>
    (match splitUntil "]]>".toList r2 with
     | none => .error (.xmlParse "Unexpected EOF in CDATA")
     | some (content, r3) => .ok (.cdata (String.mk content), r3))
  | '<' :: '!' :: r2 =>
    (match splitUntil ['>'] r2 with
     | none => .error (.xmlParse "Unexpected EOF in bang declaration")
     | some (content, r3) =>
       if isPrefixOfChars "DOCTYPE".toList content then
         .ok (.doctype (String.mk (trimChars (content.drop 7))), r3)
       else .error (.xmlParse "Unknown bang declaration"))
  | '<' :: '/' :: r2 =>
    (match splitUntil ['>'] r2 with
     | none => .error (.xmlParse "Unexpected EOF in end tag")
     | some (content, r3) => .ok (.endTag (String.mk (trimChars content)), r3))
  | '<' :: r2 =>
    (match splitUntil ['>'] r2 with
     | none => .error (.xmlParse "Unexpected EOF in tag")
     | some (content, r3) =>
       let isEmptyTag := content.getLast? == some '/'
       let content := if isEmptyTag then content.dropLast else content
       let name := content.takeWhile fun c => !asciiWs c
       match parse_tag_attrs (content.drop name.length) with
       | .error e => .error e
       | .ok attrs =>
         if isEmptyTag then .ok (.emptyTag (String.mk name) attrs, r3)
         else .ok (.start (String.mk name) attrs, r3))
  | c :: cs =>
    let txt := (c :: cs).takeWhile fun ch => !(ch == '<')
    .ok (.text (String.mk txt), (c :: cs).drop txt.length)

/-- `parse_element_start` from `src/parse.rs`: qualified names split at the
first `:`, attribute values XML-unescaped. -/
def parse_element_start (name : String) (attrs : List (String × String)) : Element :=
  .mk (QName.parseQ name)
    (attrs.map fun p => ⟨QName.parseQ p.1, String.mk (unescapeChars p.2.toList)⟩)
    []

def addChild (e : Element) (n : Node) : Element :=
  .mk e.name e.attributes (e.children ++ [n])

/-- The `Event::Text` case of `parse_element` (`src/parse.rs` lines 80–85):
the (unescaped) text is added as a child unless its trimmed content is empty
and the element has no children yet. -/
def add_text_node (e : Element) (t : String) : Element :=
  match e with
  | .mk n a cs =>
    if !(trimChars t.toList).isEmpty || !cs.isEmpty then .mk n a (cs ++ [.text t])
    else .mk n a cs

def splitOnceWsChars : List Char → Option (List Char × List Char)
  | [] => none
  | c :: cs =>
    if asciiWs c then some ([], cs)
    else (splitOnceWsChars cs).map fun p => (c :: p.1, p.2)

/-- The `Event::PI` handling of `parse_element`: split target and content at
the first whitespace. -/
def piNode (content : String) : Node :=
  match splitOnceWsChars content.toList with
  | some (t, r) => .pi (String.mk t) (some (String.mk r))
  | none => .pi content none

/-- The event loop of `parse_element` from `src/parse.rs`, with fuel. -/
def parse_element_go : Nat → Element → List Char → Except SvagErr (Element × List Char)
  | 0, _, _ => .error (.invalidSvg "Unexpected end of file")
  | fuel + 1, el, l =>
    match read_event l with
    | .error e => .error e
    | .ok (ev, l1) =>
      match ev with
      | .start n attrs =>
        (match parse_element_go fuel (parse_element_start n attrs) l1 with
         | .error e => .error e
         | .ok (child, l2) => parse_element_go fuel (addChild el (.element child)) l2)
      | .emptyTag n attrs =>
        parse_element_go fuel (addChild el (.element (parse_element_start n attrs))) l1
      | .endTag _ => .ok (el, l1)
      | .text raw =>
        parse_element_go fuel (add_text_node el (String.mk (unescapeChars raw.toList))) l1
      | .comment c => parse_element_go fuel (addChild el (.comment c)) l1
      | .cdata d => parse_element_go fuel (addChild el (.cdata d)) l1
      | .pi content => parse_element_go fuel (addChild el (piNode content)) l1
      | .decl _ _ _ => parse_element_go fuel el l1
      | .doctype _ => parse_element_go fuel el l1
      | .eof => .error (.invalidSvg "Unexpected end of file")

/-- The pre-root event loop of `parse_svg` from `src/parse.rs`, with fuel. -/
def parse_svg_go :
    Nat → List Char → Option XmlDeclaration → Option String →
    Except SvagErr (Option XmlDeclaration × Option String × Option Element)
  | 0, _, decl, dt => .ok (decl, dt, none)
  | fuel + 1, l, decl, dt =>
    match read_event l with
    | .error e => .error e
    | .ok (ev, l1) =>
      match ev with
      | .decl v enc st =>
        parse_svg_go fuel l1 (some ⟨v, enc, st.map (fun s => s == "yes")⟩) dt
      | .doctype s => parse_svg_go fuel l1 decl (some s)
      | .start n attrs =>
        (match parse_element_go (l1.length + 1) (parse_element_start n attrs) l1 with
         | .error e => .error e
         | .ok (root, _) => .ok (decl, dt, some root))
      | .emptyTag n attrs => .ok (decl, dt, some (parse_element_start n attrs))
      | .comment _ => parse_svg_go fuel l1 decl dt
      | .text _ => parse_svg_go fuel l1 decl dt
      | .pi _ => parse_svg_go fuel l1 decl dt
      | .endTag _ => parse_svg_go fuel l1 decl dt
      | .cdata _ => parse_svg_go fuel l1 decl dt
      | .eof => .ok (decl, dt, none)

/-- `parse_svg` from `src/parse.rs`. -/
def parse_svg (svg : String) : Except SvagErr Document :=
  match parse_svg_go (svg.toList.length + 1) svg.toList none none with
  | .error e => .error e
  | .ok (decl, dt, some root) => .ok ⟨decl, dt, root⟩
  | .ok (_, _, none) => .error (.invalidSvg "No root element found")

/-! ## Entry points (`src/lib.rs`) -/

/-- `minify_with_options`: parse, optimize, serialize.  The `.panicked`
error models a Rust panic escaping from `optimize` (see `minify_color`). -/
def minify_with_options (svg : String) (options : Options) : Except SvagErr String :=
  match parse_svg svg with
  | .error e => .error e
  | .ok doc =>
    match optimize doc options with
    | none => .error .panicked
    | some doc' => .ok (serialize doc' options)

/-- `minify`: `minify_with_options` at the default options. -/
def minify (svg : String) : Except SvagErr String :=
  minify_with_options svg default_options

/-! ## Claim-level predicates -/

mutual
/-- The local names of all `xmlns:P` declarations in a subtree. -/
def xmlns_decl_locals : Element → List String
  | .mk _ a cs =>
    ((a.filter fun at_ => at_.name.pfx == some "xmlns").map fun at_ => at_.name.localName)
      ++ xmlns_decl_locals_children cs

def xmlns_decl_locals_children : List Node → List String
  | [] => []
  | .element e :: cs => xmlns_decl_locals e ++ xmlns_decl_locals_children cs
  | _ :: cs => xmlns_decl_locals_children cs
end

/-- Every `xmlns:P` declaration anywhere in the tree has its prefix `P` used
by some element or some non-namespace-declaration attribute of the tree. -/
def xmlns_decls_all_used (e : Element) : Bool :=
  (xmlns_decl_locals e).all fun P => (collect_used_prefixes e).contains (some P)

mutual
/-- All elements strictly below the given element. -/
def descendant_elements : Element → List Element
  | .mk _ _ cs => descendant_elements_children cs

def descendant_elements_children : List Node → List Element
  | [] => []
  | .element e :: cs => e :: descendant_elements e ++ descendant_elements_children cs
  | _ :: cs => descendant_elements_children cs
end

mutual
/-- No attribute of any element of the subtree is a §4.2 default triple. -/
def elem_no_default : Element → Bool
  | .mk n a cs =>
    (a.all fun attr => !is_default_value n.localName attr.name.localName attr.value) &&
    nodes_no_default cs

def nodes_no_default : List Node → Bool
  | [] => true
  | .element e :: cs => elem_no_default e && nodes_no_default cs
  | _ :: cs => nodes_no_default cs
end

/-! ## Helper lemmas -/

theorem filter_all_self (p : α → Bool) (l : List α) : (l.filter p).all p = true := by
  induction l with
  | nil => rfl
  | cons x t ih =>
    by_cases h : p x = true
    · simp [List.filter_cons, h, ih]
    · simp only [Bool.not_eq_true] at h
      simp [List.filter_cons, h, ih]

theorem filter_filter_of_imp (p q : α → Bool) (h : ∀ x, q x = true → p x = true)
    (l : List α) : (l.filter p).filter q = l.filter q := by
  induction l with
  | nil => rfl
  | cons x t ih =>
    by_cases hq : q x = true
    · have hp := h x hq
      simp [List.filter_cons, hp, hq, ih]
    · simp only [Bool.not_eq_true] at hq
      by_cases hp : p x = true
      · simp [List.filter_cons, hp, hq, ih]
      · simp only [Bool.not_eq_true] at hp
        simp [List.filter_cons, hp, hq, ih]

theorem is_hidden_children_irrel (n : QName) (a : List Attribute) (cs cs' : List Node) :
    is_hidden (.mk n a cs) = is_hidden (.mk n a cs') := rfl

theorem style_never_default (el v : String) : is_default_value el "style" v = false := by
  simp [is_default_value, default_attr_table]

/-! ## Claim C4: unused namespace declarations -/

def c4_input_doc : Document :=
  ⟨none, none,
    .mk ⟨none, "svg"⟩ []
      [.element (.mk ⟨none, "rect"⟩ [⟨⟨some "xmlns", "foo"⟩, "u"⟩] [])]⟩

/-- Counterexample to C4 as stated: `remove_unused_namespaces` filters only
the root's attribute list, so an unused `xmlns:foo` declared on a non-root
element survives the whole default pipeline. -/
theorem c4_unused_nested_xmlns_kept :
    (optimize c4_input_doc default_options).any (fun d => !xmlns_decls_all_used d.root)
      = true := by decide

theorem sel_implies_retain (used : List (Option String)) :
    ∀ x : Attribute, (x.name.pfx.isSome && !x.name.is_xmlns) = true →
      (if x.name.localName == "xmlns" && x.name.pfx == none then true
       else if x.name.pfx == some "xmlns" then used.contains (some x.name.localName)
       else true) = true := by
  intro x hx
  rw [Bool.and_eq_true, Bool.not_eq_true'] at hx
  obtain ⟨h1, h2⟩ := hx
  rw [QName.is_xmlns, Bool.or_eq_false_iff] at h2
  obtain ⟨h3, _⟩ := h2
  cases hp : QName.pfx x.name with
  | none => rw [hp] at h1; exact absurd h1 (by decide)
  | some q =>
    rw [hp] at h3
    simp [h3]

theorem collect_after_ns_filter (n : QName) (a : List Attribute) (cs : List Node)
    (used : List (Option String)) :
    collect_used_prefixes
      (.mk n
        (a.filter fun attr =>
          if attr.name.localName == "xmlns" && attr.name.pfx == none then true
          else if attr.name.pfx == some "xmlns" then used.contains (some attr.name.localName)
          else true)
        cs)
      = collect_used_prefixes (.mk n a cs) := by
  simp only [collect_used_prefixes]
  rw [filter_filter_of_imp _ _ (sel_implies_retain used) a]

/-- C4 (amended): immediately after the `remove_unused_namespaces` pass,
every `xmlns:P` declaration remaining on the element it was applied to (the
document root) has its prefix `P` used by some element or some
non-namespace-declaration attribute of the tree at that point. -/
theorem c4_root_xmlns_used_after_pass (e : Element) :
    ((remove_unused_namespaces e).attributes.all fun attr =>
      !(attr.name.pfx == some "xmlns") ||
        (collect_used_prefixes (remove_unused_namespaces e)).contains
          (some attr.name.localName)) = true := by
  match e with
  | .mk n a cs =>
    rw [List.all_eq_true]
    intro attr hmem
    simp only [remove_unused_namespaces, Element.attributes] at hmem
    rw [List.mem_filter] at hmem
    obtain ⟨_, hP⟩ := hmem
    by_cases hx : (attr.name.pfx == some "xmlns") = true
    · have hpfx : attr.name.pfx = some "xmlns" := beq_iff_eq.mp hx
      rw [hpfx] at hP
      rw [show ((some "xmlns" : Option String) == none) = false from rfl, Bool.and_false] at hP
      rw [if_neg (by simp)] at hP
      rw [show ((some "xmlns" : Option String) == some "xmlns") = true from rfl] at hP
      rw [if_pos rfl] at hP
      simp only [remove_unused_namespaces]
      rw [collect_after_ns_filter]
      rw [Bool.or_eq_true]
      right
      exact hP
    · rw [Bool.or_eq_true]
      left
      rw [Bool.not_eq_true']
      rw [Bool.not_eq_true] at hx
      exact hx

/-! ## Claim C5: hidden elements -/

def c5_input_doc : Document :=
  ⟨none, none, .mk ⟨none, "svg"⟩ [⟨⟨none, "display"⟩, "none"⟩] []⟩

/-- Counterexample to C5 as stated: `remove_hidden` only filters children, so
a hidden root element (here `display="none"`) survives the whole default
pipeline and the output still contains an element satisfying `is_hidden`. -/
theorem c5_hidden_root_survives :
    (optimize c5_input_doc default_options).any (fun d => is_hidden d.root) = true := by
  decide

mutual
/-- C5 (amended): immediately after the `remove_hidden` pass, no element
strictly below the element it was applied to (the document root) satisfies
`is_hidden`; the root itself is never tested, and later style-normalisation
passes can reintroduce a `style` value containing `display:none`. -/
theorem c5_no_hidden_descendant_after_pass (e : Element) :
    ((descendant_elements (remove_hidden e)).all fun d => !is_hidden d) = true := by
  match e with
  | .mk n a cs =>
    simp only [remove_hidden, descendant_elements]
    exact c5_no_hidden_descendant_children cs

theorem c5_no_hidden_descendant_children (cs : List Node) :
    ((descendant_elements_children (remove_hidden_children cs)).all fun d => !is_hidden d)
      = true := by
  match cs with
  | [] => rfl
  | .element e :: cs =>
    by_cases h : is_hidden e = true
    · simp only [remove_hidden_children, h, if_true]
      exact c5_no_hidden_descendant_children cs
    · rw [Bool.not_eq_true] at h
      simp only [remove_hidden_children, h, Bool.false_eq_true, if_false,
        descendant_elements_children, List.all_cons, List.all_append]
      have hh : is_hidden (remove_hidden e) = false := by
        match e with
        | .mk n' a' cs' =>
          simp only [remove_hidden]
          rw [is_hidden_children_irrel n' a' (remove_hidden_children cs') cs']
          exact h
      rw [hh]
      simp only [Bool.not_false, Bool.true_and]
      rw [c5_no_hidden_descendant_after_pass e, c5_no_hidden_descendant_children cs]
      rfl
  | .text t :: cs =>
    simp only [remove_hidden_children, descendant_elements_children]
    exact c5_no_hidden_descendant_children cs
  | .comment c :: cs =>
    simp only [remove_hidden_children, descendant_elements_children]
    exact c5_no_hidden_descendant_children cs
  | .cdata c :: cs =>
    simp only [remove_hidden_children, descendant_elements_children]
    exact c5_no_hidden_descendant_children cs
  | .pi t c :: cs =>
    simp only [remove_hidden_children, descendant_elements_children]
    exact c5_no_hidden_descendant_children cs
end

/-! ## Claim C7: default attributes absent from the output -/

theorem all_set_attr_list (p : Attribute → Bool) (nm v : String) (a : List Attribute)
    (h : a.all p = true) (hnew : p (Attribute.newA nm v) = true)
    (hupd : ∀ x : Attribute, x.name.localName = nm → p ⟨x.name, v⟩ = true) :
    (set_attr_list a nm v).all p = true := by
  induction a with
  | nil => simp [set_attr_list, hnew]
  | cons x t ih =>
    rw [List.all_cons, Bool.and_eq_true] at h
    obtain ⟨hx, ht⟩ := h
    by_cases hc : (x.name.localName == nm) = true
    · simp [set_attr_list, hc, hupd x (beq_iff_eq.mp hc), ht]
    · rw [Bool.not_eq_true] at hc
      simp [set_attr_list, hc, hx, ih ht]

theorem all_remove_attr_list (p : Attribute → Bool) (nm : String) (a : List Attribute)
    (h : a.all p = true) : (remove_attr_list a nm).all p = true := by
  induction a with
  | nil => rfl
  | cons x t ih =>
    rw [List.all_cons, Bool.and_eq_true] at h
    obtain ⟨hx, ht⟩ := h
    by_cases hc : (x.name.localName == nm) = true
    · simp [remove_attr_list, hc, ih ht]
    · rw [Bool.not_eq_true] at hc
      simp [remove_attr_list, hc, hx, ih ht]

mutual
theorem remove_default_attrs_no_default (e : Element) :
    elem_no_default (remove_default_attrs e) = true := by
  match e with
  | .mk n a cs =>
    simp only [remove_default_attrs, elem_no_default]
    rw [filter_all_self, remove_default_attrs_children_no_default cs]
    rfl

theorem remove_default_attrs_children_no_default (cs : List Node) :
    nodes_no_default (remove_default_attrs_children cs) = true := by
  match cs with
  | [] => rfl
  | .element e :: cs =>
    simp only [remove_default_attrs_children, nodes_no_default]
    rw [remove_default_attrs_no_default e, remove_default_attrs_children_no_default cs]
    rfl
  | .text t :: cs =>
    simp only [remove_default_attrs_children, nodes_no_default]
    exact remove_default_attrs_children_no_default cs
  | .comment c :: cs =>
    simp only [remove_default_attrs_children, nodes_no_default]
    exact remove_default_attrs_children_no_default cs
  | .cdata c :: cs =>
    simp only [remove_default_attrs_children, nodes_no_default]
    exact remove_default_attrs_children_no_default cs
  | .pi t c :: cs =>
    simp only [remove_default_attrs_children, nodes_no_default]
    exact remove_default_attrs_children_no_default cs
end

mutual
theorem minify_styles_no_default (e : Element) (h : elem_no_default e = true) :
    elem_no_default (minify_styles e) = true := by
  match e with
  | .mk n a cs =>
    simp only [elem_no_default, Bool.and_eq_true] at h
    obtain ⟨ha, hc⟩ := h
    simp only [minify_styles, elem_no_default, Bool.and_eq_true]
    refine ⟨?_, minify_styles_children_no_default cs hc⟩
    cases hst : get_attr_list a "style" with
    | none => simp only [hst]; exact ha
    | some style =>
      by_cases hemp : (minify_style style).toList.isEmpty = true
      · simp only [hst, hemp, if_true]
        exact all_remove_attr_list _ _ _ ha
      · rw [Bool.not_eq_true] at hemp
        simp only [hst, hemp, Bool.false_eq_true, if_false]
        refine all_set_attr_list _ _ _ _ ha ?_ ?_
        · simp [Attribute.newA, QName.newQ, style_never_default]
        · intro x hx
          simp [hx, style_never_default]

theorem minify_styles_children_no_default (cs : List Node) (h : nodes_no_default cs = true) :
    nodes_no_default (minify_styles_children cs) = true := by
  match cs with
  | [] => rfl
  | .element e :: cs =>
    simp only [nodes_no_default, Bool.and_eq_true] at h
    simp only [minify_styles_children, nodes_no_default, Bool.and_eq_true]
    exact ⟨minify_styles_no_default e h.1, minify_styles_children_no_default cs h.2⟩
  | .text t :: cs =>
    simp only [nodes_no_default] at h
    simp only [minify_styles_children, nodes_no_default]
    exact minify_styles_children_no_default cs h
  | .comment c :: cs =>
    simp only [nodes_no_default] at h
    simp only [minify_styles_children, nodes_no_default]
    exact minify_styles_children_no_default cs h
  | .cdata c :: cs =>
    simp only [nodes_no_default] at h
    simp only [minify_styles_children, nodes_no_default]
    exact minify_styles_children_no_default cs h
  | .pi t c :: cs =>
    simp only [nodes_no_default] at h
    simp only [minify_styles_children, nodes_no_default]
    exact minify_styles_children_no_default cs h
end

mutual
theorem cleanup_whitespace_no_default (e : Element) (h : elem_no_default e = true) :
    elem_no_default (cleanup_whitespace e) = true := by
  match e with
  | .mk n a cs =>
    simp only [elem_no_default, Bool.and_eq_true] at h
    simp only [cleanup_whitespace, elem_no_default, Bool.and_eq_true]
    exact ⟨h.1, cleanup_whitespace_children_no_default cs h.2⟩

theorem cleanup_whitespace_children_no_default (cs : List Node)
    (h : nodes_no_default cs = true) :
    nodes_no_default (cleanup_whitespace_children cs) = true := by
  match cs with
  | [] => rfl
  | .element e :: cs =>
    simp only [nodes_no_default, Bool.and_eq_true] at h
    simp only [cleanup_whitespace_children, nodes_no_default, Bool.and_eq_true]
    exact ⟨cleanup_whitespace_no_default e h.1, cleanup_whitespace_children_no_default cs h.2⟩
  | .text t :: cs =>
    simp only [nodes_no_default] at h
    by_cases ht : (trimChars t.toList).isEmpty = true
    · simp only [cleanup_whitespace_children, ht, if_true]
      exact cleanup_whitespace_children_no_default cs h
    · rw [Bool.not_eq_true] at ht
      simp only [cleanup_whitespace_children, ht, Bool.false_eq_true, if_false,
        nodes_no_default]
      exact cleanup_whitespace_children_no_default cs h
  | .comment c :: cs =>
    simp only [nodes_no_default] at h
    simp only [cleanup_whitespace_children, nodes_no_default]
    exact cleanup_whitespace_children_no_default cs h
  | .cdata c :: cs =>
    simp only [nodes_no_default] at h
    simp only [cleanup_whitespace_children, nodes_no_default]
    exact cleanup_whitespace_children_no_default cs h
  | .pi t c :: cs =>
    simp only [nodes_no_default] at h
    simp only [cleanup_whitespace_children, nodes_no_default]
    exact cleanup_whitespace_children_no_default cs h
end

/-- C7: for every input document minified with the default options (so with
`remove_defaults` on), whenever `optimize` succeeds no attribute of any
element of the output is a §4.2 default triple (`is_default_value`); in
particular the passes that run after `remove_default_attrs` (`minify_styles`
and the whitespace cleanup) never reintroduce one. -/
theorem c7_no_default_attrs_in_output (doc : Document) :
    (optimize doc default_options).all (fun d => elem_no_default d.root) = true := by
  simp only [optimize, default_options, if_true]
  cases hmc : minify_colors (minify_paths 2 (collapse_groups (remove_empty (remove_hidden
      (remove_comments (remove_unused_namespaces (remove_metadata doc.root))))))) with
  | none => simp only [hmc, Option.all]
  | some r =>
    simp only [hmc, Option.all]
    exact cleanup_whitespace_no_default _
      (minify_styles_no_default _ (remove_default_attrs_no_default r))

/-! ## Claim C9: the root element survives with its name -/

theorem remove_metadata_name (e : Element) : (remove_metadata e).name = e.name := by
  match e with
  | .mk n a cs => rfl

theorem remove_unused_namespaces_name (e : Element) :
    (remove_unused_namespaces e).name = e.name := by
  match e with
  | .mk n a cs => rfl

theorem remove_comments_name (e : Element) : (remove_comments e).name = e.name := by
  match e with
  | .mk n a cs => rfl

theorem remove_hidden_name (e : Element) : (remove_hidden e).name = e.name := by
  match e with
  | .mk n a cs => rfl

theorem remove_empty_name (e : Element) : (remove_empty e).name = e.name := by
  match e with
  | .mk n a cs => rfl

theorem collapse_groups_name (e : Element) : (collapse_groups e).name = e.name := by
  match e with
  | .mk n a cs => rfl

theorem minify_paths_name (p : Nat) (e : Element) : (minify_paths p e).name = e.name := by
  match e with
  | .mk n a cs => rfl

theorem remove_default_attrs_name (e : Element) :
    (remove_default_attrs e).name = e.name := by
  match e with
  | .mk n a cs => rfl

theorem minify_styles_name (e : Element) : (minify_styles e).name = e.name := by
  match e with
  | .mk n a cs => rfl

theorem cleanup_whitespace_name (e : Element) : (cleanup_whitespace e).name = e.name := by
  match e with
  | .mk n a cs => rfl

theorem minify_colors_name (e e' : Element) (h : minify_colors e = some e') :
    e'.name = e.name := by
  match e with
  | .mk n a cs =>
    cases h1 : minify_attr_colors a with
    | none => simp [minify_colors, h1] at h
    | some a1 =>
      cases h2 : get_attr_list a1 "style" with
      | none =>
        cases h3 : minify_colors_children cs with
        | none => simp [minify_colors, h1, h2, h3] at h
        | some cs' =>
          simp only [minify_colors, h1, h2, h3, Option.some.injEq] at h
          rw [← h]
          rfl
      | some style =>
        cases h4 : minify_style_colors style with
        | none => simp [minify_colors, h1, h2, h4] at h
        | some ns =>
          cases h3 : minify_colors_children cs with
          | none => simp [minify_colors, h1, h2, h4, h3] at h
          | some cs' =>
            simp only [minify_colors, h1, h2, h4, h3, Option.some.injEq] at h
            rw [← h]
            rfl

theorem if_pass_name (b : Bool) (f : Element → Element) (e : Element)
    (hf : ∀ x, (f x).name = x.name) : (if b then f e else e).name = e.name := by
  cases b
  · rfl
  · simp [hf]

/-- C9: `minify` never removes, replaces or renames the root element — for
every document and every option set, whenever `optimize` succeeds the output
document's root has the same qualified name as the input's root (even when
the root is hidden, an empty container, or a collapsible group). -/
theorem c9_root_name_preserved (doc : Document) (options : Options) :
    (optimize doc options).all (fun d => d.root.name == doc.root.name) = true := by
  simp only [optimize]
  set e1 := (if options.remove_metadata then remove_metadata doc.root else doc.root) with he1
  set e2 := (if options.remove_unused_namespaces then remove_unused_namespaces e1 else e1)
    with he2
  set e3 := (if options.remove_comments then remove_comments e2 else e2) with he3
  set e4 := (if options.remove_hidden then remove_hidden e3 else e3) with he4
  set e5 := (if options.remove_empty then remove_empty e4 else e4) with he5
  set e6 := (if options.collapse_groups then collapse_groups e5 else e5) with he6
  set e7 := (if options.minify_paths then minify_paths options.precision e6 else e6) with he7
  have h7 : e7.name = doc.root.name := by
    rw [he7, if_pass_name _ _ _ (minify_paths_name options.precision),
      he6, if_pass_name _ _ _ collapse_groups_name,
      he5, if_pass_name _ _ _ remove_empty_name,
      he4, if_pass_name _ _ _ remove_hidden_name,
      he3, if_pass_name _ _ _ remove_comments_name,
      he2, if_pass_name _ _ _ remove_unused_namespaces_name,
      he1, if_pass_name _ _ _ remove_metadata_name]
  cases hmc : (if options.minify_colors then minify_colors e7 else some e7) with
  | none => simp only [hmc, Option.all]
  | some r =>
    have hr : r.name = e7.name := by
      by_cases hb : options.minify_colors = true
      · rw [hb, if_pos rfl] at hmc
        exact minify_colors_name e7 r hmc
      · rw [Bool.not_eq_true] at hb
        rw [hb] at hmc
        simp only [Bool.false_eq_true, if_false, Option.some.injEq] at hmc
        rw [← hmc]
    simp only [hmc, Option.all]
    rw [cleanup_whitespace_name, if_pass_name _ _ _ minify_styles_name,
      if_pass_name _ _ _ remove_default_attrs_name, hr, h7]
    simp
/-! ## Claim C10: attribute helpers match by local name only -/

theorem get_attr_list_eq_find? (a : List Attribute) (nm : String) :
    get_attr_list a nm = (a.find? fun x => x.name.localName == nm).map Attribute.value := by
  induction a with
  | nil => rfl
  | cons x t ih =>
    by_cases hc : (x.name.localName == nm) = true
    · simp [get_attr_list, List.find?_cons, hc]
    · rw [Bool.not_eq_true] at hc
      simp [get_attr_list, List.find?_cons, hc, ih]

theorem set_attr_list_found (a : List Attribute) (nm v : String) (i : Nat) (a0 : Attribute)
    (hidx : a.findIdx? (fun x => x.name.localName == nm) = some i)
    (hget : a.get? i = some a0) :
    set_attr_list a nm v = a.set i ⟨a0.name, v⟩ := by
  induction a generalizing i with
  | nil => simp [List.findIdx?] at hidx
  | cons x t ih =>
    rw [List.findIdx?_cons] at hidx
    by_cases hc : (x.name.localName == nm) = true
    · simp only [hc, if_true] at hidx
      injection hidx with h0
      subst h0
      simp only [List.get?] at hget
      injection hget with h1
      subst h1
      simp [set_attr_list, hc]
    · rw [Bool.not_eq_true] at hc
      simp only [hc, Bool.false_eq_true, if_false] at hidx
      rw [List.findIdx?_succ] at hidx
      cases ht : t.findIdx? (fun x => x.name.localName == nm) with
      | none => rw [ht] at hidx; simp at hidx
      | some j =>
        rw [ht] at hidx
        simp at hidx
        subst hidx
        simp only [List.get?] at hget
        simp [set_attr_list, hc, ih j ht hget]

theorem set_attr_list_not_found (a : List Attribute) (nm v : String)
    (h : a.findIdx? (fun x => x.name.localName == nm) = none) :
    set_attr_list a nm v = a ++ [Attribute.newA nm v] := by
  induction a with
  | nil => rfl
  | cons x t ih =>
    rw [List.findIdx?_cons] at h
    by_cases hc : (x.name.localName == nm) = true
    · simp [hc] at h
    · rw [Bool.not_eq_true] at hc
      simp only [hc, Bool.false_eq_true, if_false] at h
      rw [List.findIdx?_succ] at h
      cases ht : t.findIdx? (fun x => x.name.localName == nm) with
      | none => simp [set_attr_list, hc, ih ht]
      | some j => rw [ht] at h; simp at h

theorem remove_attr_list_eq_filter (a : List Attribute) (nm : String) :
    remove_attr_list a nm = a.filter fun x => !(x.name.localName == nm) := by
  induction a with
  | nil => rfl
  | cons x t ih =>
    by_cases hc : (x.name.localName == nm) = true
    · simp [remove_attr_list, List.filter_cons, hc, ih]
    · rw [Bool.not_eq_true] at hc
      simp [remove_attr_list, List.filter_cons, hc, ih]

/-- C10: the attribute helpers of `src/ast.rs` match by local name only,
ignoring the prefix: `get_attr` returns the value of the first attribute
whose local name matches; `set_attr` overwrites the value of the first such
attribute keeping its (possibly prefixed) name, and otherwise appends a new
unprefixed attribute; `remove_attr` removes every attribute with that local
name. -/
theorem c10_attr_helpers_local_name (e : Element) (nm v : String) :
    (Element.get_attr e nm
        = (e.attributes.find? fun x => x.name.localName == nm).map Attribute.value)
    ∧ (∀ (i : Nat) (a0 : Attribute),
        e.attributes.findIdx? (fun x => x.name.localName == nm) = some i →
        e.attributes.get? i = some a0 →
        (Element.set_attr e nm v).attributes = e.attributes.set i ⟨a0.name, v⟩)
    ∧ (e.attributes.findIdx? (fun x => x.name.localName == nm) = none →
        (Element.set_attr e nm v).attributes = e.attributes ++ [Attribute.newA nm v])
    ∧ ((Element.remove_attr e nm).attributes
        = e.attributes.filter fun x => !(x.name.localName == nm)) := by
  refine ⟨?_, ?_, ?_, ?_⟩
  · rw [Element.get_attr, get_attr_list_eq_find?]
  · intro i a0 hidx hget
    match e with
    | .mk n a cs =>
      simp only [Element.set_attr, Element.attributes] at *
      exact set_attr_list_found a nm v i a0 hidx hget
  · intro h
    match e with
    | .mk n a cs =>
      simp only [Element.set_attr, Element.attributes] at *
      exact set_attr_list_not_found a nm v h
  · match e with
    | .mk n a cs =>
      simp only [Element.remove_attr, Element.attributes]
      exact remove_attr_list_eq_filter a nm

def c10_witness_elem : Element := .mk ⟨none, "e"⟩ [⟨⟨some "p", "x"⟩, "old"⟩] []

/-- Witness for C10 at a concrete element: overwriting attribute `x` keeps
the existing prefixed name `p:x`. -/
theorem c10_attr_helpers_local_name_witness :
    (Element.set_attr c10_witness_elem "x" "v").attributes
      = c10_witness_elem.attributes.set 0 ⟨⟨some "p", "x"⟩, "v"⟩ :=
  (c10_attr_helpers_local_name c10_witness_elem "x" "v").2.1 0 ⟨⟨some "p", "x"⟩, "old"⟩
    (by decide) (by decide)

/-! ## Claim C8: whitespace text nodes at parse time -/

/-- C8: during `parse_element`, a text node whose trimmed (unescaped) content
is empty is added as a child iff the containing element already has at least
one child; text with non-whitespace content is always added (appended at the
end); pure-whitespace text before the first child leaves the element
unchanged. -/
theorem c8_text_node_retention (el : Element) (t : String) :
    ((trimChars t.toList).isEmpty = true →
      ((add_text_node el t).children = el.children ++ [Node.text t] ↔ el.children ≠ []))
    ∧ ((trimChars t.toList).isEmpty = false →
      (add_text_node el t).children = el.children ++ [Node.text t])
    ∧ ((trimChars t.toList).isEmpty = true → el.children = [] → add_text_node el t = el) := by
  match el with
  | .mk n a cs =>
    refine ⟨?_, ?_, ?_⟩
    · intro hws
      by_cases hcs : cs = []
      · subst hcs
        constructor
        · intro h
          exfalso
          simp only [add_text_node, Element.children, hws, Bool.not_true,
            List.isEmpty_nil, Bool.or_self, Bool.false_eq_true, if_false,
            List.nil_append] at h
          exact List.cons_ne_nil _ _ h.symm
        · intro h
          exact absurd rfl h
      · have hcs' : cs.isEmpty = false := by
          cases cs
          · exact absurd rfl hcs
          · rfl
        constructor
        · intro _
          exact hcs
        · intro _
          simp only [add_text_node, Element.children, hws, hcs', Bool.not_true,
            Bool.not_false, Bool.false_or, if_true]
    · intro hws
      simp only [add_text_node, Element.children, hws, Bool.not_false, Bool.true_or, if_true]
    · intro hws hnil
      simp only [Element.children] at hnil
      subst hnil
      simp only [add_text_node, hws, Bool.not_true, List.isEmpty_nil, Bool.or_self,
        Bool.false_eq_true, if_false]

def c8_witness_elem : Element := .mk ⟨none, "text"⟩ [] [.text "hi"]

/-- Witness for C8: whitespace text after an existing child is appended. -/
theorem c8_text_node_retention_witness :
    (add_text_node c8_witness_elem " ").children
      = c8_witness_elem.children ++ [Node.text " "] :=
  ((c8_text_node_retention c8_witness_elem " ").1 (by decide)).mpr
    (by simp [c8_witness_elem, Element.children])

/-! ## Claim C1: serialize/parse round trip -/

/-- C1: the command-letter elision rule does change which command a tuple is
parsed as — a second absolute `MoveTo` is emitted without its letter (the
previous emitted letter equals it), and the re-parse reads the tuple as an
implicit `LineTo` after `M`.  The round trip therefore does not preserve the
command variants: `[M 10 20, M 30 40]` serializes to `"M10 20 30 40"`, which
parses back as `[M 10 20, L 30 40]`. -/
theorem c1_repeated_moveto_elision_changes_parse :
    serialize_path
        [.MoveTo false ⟨10, 0⟩ ⟨20, 0⟩, .MoveTo false ⟨30, 0⟩ ⟨40, 0⟩] 2
      = "M10 20 30 40"
    ∧ parse_path "M10 20 30 40"
      = .ok [.MoveTo false ⟨10, 0⟩ ⟨20, 0⟩, .LineTo false ⟨30, 0⟩ ⟨40, 0⟩]
    ∧ (decide (parse_path
        (serialize_path [.MoveTo false ⟨10, 0⟩ ⟨20, 0⟩, .MoveTo false ⟨30, 0⟩ ⟨40, 0⟩] 2)
      = .ok [.MoveTo false ⟨10, 0⟩ ⟨20, 0⟩, .MoveTo false ⟨30, 0⟩ ⟨40, 0⟩])) = false := by
  refine ⟨by decide, by decide, by decide⟩

/-! ## Claim C2: idempotence of minify -/

/-- C2: `minify` is not idempotent.  On
`<svg xmlns:foo="u"><foo:rect display="none"/></svg>` the first application
keeps `xmlns:foo` (the prefix-use analysis of pass 2 runs before
`remove_hidden` deletes the only user) and the second application then drops
it, so `minify (minify S) ≠ minify S`. -/
theorem c2_minify_not_idempotent :
    minify "<svg xmlns:foo=\"u\"><foo:rect display=\"none\"/></svg>"
      = .ok "<svg xmlns:foo=\"u\"/>"
    ∧ minify "<svg xmlns:foo=\"u\"/>" = .ok "<svg/>"
    ∧ (("<svg xmlns:foo=\"u\"/>" : String) == "<svg/>") = false := by
  refine ⟨by decide, by decide, by decide⟩

/-! ## Claim C3: termination of the path parser -/

theorem parse_path_go_stuck (fuel : Nat) (acc : List Command) :
    parse_path_go fuel ['-'] (some 'z') acc = .error .fuelExhausted := by
  induction fuel generalizing acc with
  | zero => rfl
  | succ n ih => exact ih (Command.ClosePath :: acc)

/-- C3: `parse_path` does not terminate on every input: on `"z-"` the Rust
loop repeats the implicit `z` command without consuming a character, forever.
In the fuelled model, every fuel value is exhausted (the loop state after the
explicit `z` — remaining input `"-"`, last command `z` — repeats itself). -/
theorem c3_parse_path_diverges :
    (∀ fuel : Nat, parse_path_go fuel "z-".toList none [] = .error .fuelExhausted)
    ∧ parse_path "z-" = .error .fuelExhausted := by
  constructor
  · intro fuel
    cases fuel with
    | zero => rfl
    | succ n => exact parse_path_go_stuck n [Command.ClosePath]
  · exact parse_path_go_stuck 2 [Command.ClosePath]

/-! ## Claim C6: totality of color rewriting -/

/-- C6: `minify_color` is not total: on the 7-byte value `#a€bc` the
`#RRGGBB` arm slices `&lower[1..]` at byte offset 2, which is inside the
three-byte encoding of `€` — a panic (modelled as `none`). -/
theorem c6_minify_color_panics_on_multibyte :
    minify_color "#a€bc" = none := by decide

end Svag
